import Mathlib

/-!
Verification of the Go-Back-N ARQ sender in `GO-BACK2025/client.py`.

The Python class `GBNClient` is embedded shallowly:

* Byte strings become `List Nat` (one `Nat` per byte).
* The Python dictionaries `packet_data` and `sent_packets` become association
  lists `List (Nat × List Nat)` with dictionary semantics (`dictInsert`
  overwrites in place or appends fresh keys; `del d[k] for k ≤ a` becomes
  `dictEraseLe`).
* The three critical sections that mutate window state under `self.lock`
  (the window-fill body of `send_packets`, `handle_ack`, `handle_timeout`)
  become pure state-transition functions on `ClientState`.
* The threading timer is modelled by the `timer_active` boolean that the code
  itself maintains; bytes written to the socket are accumulated in a `wire`
  trace field.
* `random.random()` draws are modelled by a per-sequence-number rational
  `draw` in the configuration; `send_packet`'s loss test
  `random.random() <= self.packet_loss_rate` becomes `simulatedLoss`.
-/

namespace GBN

/-- Dictionary lookup for the association lists that model Python dicts:
returns the value of the first entry whose key matches. -/
def dictLookup (k : Nat) : List (Nat × List Nat) → Option (List Nat)
  | [] => none
  | p :: d => if p.1 = k then some p.2 else dictLookup k d

/-- Python dict assignment `d[k] = v`: if `k` is present, the entry is
updated in place; otherwise the new entry is appended at the end
(insertion order, as in CPython). -/
def dictInsert (k : Nat) (v : List Nat) (d : List (Nat × List Nat)) :
    List (Nat × List Nat) :=
  if (dictLookup k d).isSome then
    d.map (fun p => if p.1 = k then (k, v) else p)
  else d ++ [(k, v)]

/-- The deletion loops in `handle_ack` (lines 131-137): delete every entry
whose key is `≤ a`. -/
def dictEraseLe (a : Nat) (d : List (Nat × List Nat)) : List (Nat × List Nat) :=
  d.filter (fun p => ¬ p.1 ≤ a)

/-- Encoding as in `struct.pack('!I', seq_num)`: 4-byte unsigned big-endian. -/
def encodeSeq (seq : Nat) : List Nat :=
  [seq / 16777216 % 256, seq / 65536 % 256, seq / 256 % 256, seq % 256]

/-- Decoding as in `struct.unpack('!I', data)[0]` on a 4-byte datagram. -/
def decodeAck (data : List Nat) : Nat :=
  match data with
  | [b0, b1, b2, b3] => ((b0 * 256 + b1) * 256 + b2) * 256 + b3
  | _ => 0

/-- Decimal digits of `n` as ASCII bytes, most significant first
(`fuel` bounds the recursion; `fuel = n + 1` always suffices). -/
def decDigitsAux : Nat → Nat → List Nat
  | 0, _ => []
  | fuel + 1, n =>
    if n < 10 then [48 + n] else decDigitsAux fuel (n / 10) ++ [48 + n % 10]

/-- Decimal representation of `n` in ASCII bytes. -/
def decBytes (n : Nat) : List Nat := decDigitsAux (n + 1) n

/-- ASCII bytes of the literal `"Messaggio "`. -/
def messaggioBytes : List Nat := [77, 101, 115, 115, 97, 103, 103, 105, 111, 32]

/-- UTF-8 bytes of the payload `f"Messaggio {seq_num:03d}"` (`%03d` pads the
decimal representation with leading zeros to at least three digits). -/
def payloadBytes (seq : Nat) : List Nat :=
  messaggioBytes ++ (List.replicate (3 - (decBytes seq).length) 48 ++ decBytes seq)

/-- The serialized packet built in `send_packet` (line 87):
`struct.pack('!I', seq_num) + payload.encode('utf-8')`. -/
def makePacket (seq : Nat) : List Nat := encodeSeq seq ++ payloadBytes seq

/-- The session statistics dictionary (`self.stats`), minus `total_packets`,
which is carried in the configuration. -/
structure Stats where
  packets_sent : Nat
  packets_lost : Nat
  retransmissions : Nat
  acks_received : Nat
  timeouts : Nat
  deriving Repr, DecidableEq

/-- The initial statistics. -/
def Stats.init : Stats := ⟨0, 0, 0, 0, 0⟩

/-- The mutable state of a `GBNClient` session, plus a `wire` trace of every
datagram actually passed to `socket.sendto`. -/
structure ClientState where
  base : Nat
  next_seq : Nat
  timer_active : Bool
  running : Bool
  packet_data : List (Nat × List Nat)
  sent_packets : List (Nat × List Nat)
  stats : Stats
  wire : List (List Nat)
  deriving Repr, DecidableEq

/-- Construction-time parameters of a session: `window_size`, the
`num_packets` argument of `start`, the configured `packet_loss_rate`, and the
outcome `draw seq` of the `random.random()` call made when packet `seq` is
first transmitted (each sequence number goes through `send_packet` at most
once, so indexing draws by sequence number is faithful). -/
structure Cfg where
  window_size : Nat
  num_packets : Nat
  lossRate : ℚ
  draw : Nat → ℚ

/-- The state at session start: `base = next_seq = 0`, timer inactive,
`running` true, both dictionaries empty. -/
def initState : ClientState :=
  { base := 0, next_seq := 0, timer_active := false, running := true,
    packet_data := [], sent_packets := [], stats := Stats.init, wire := [] }

/-- The loss test on line 91: `random.random() <= self.packet_loss_rate`. -/
def simulatedLoss (draw lossRate : ℚ) : Bool := decide (draw ≤ lossRate)

/-- Model of `start_timer` (lines 144-151): no-op when already active, otherwise
marks the timer active (the spawned `threading.Timer` is modelled by the
`timer_active` flag the code itself maintains). -/
def startTimer (s : ClientState) : ClientState :=
  if s.timer_active then s else { s with timer_active := true }

/-- Model of `stop_timer` (lines 157-161): cancels the timer when one is active
(`timer_thread` is non-`None` whenever `timer_active` is true). -/
def stopTimer (s : ClientState) : ClientState :=
  if s.timer_active then { s with timer_active := false } else s

/-- Model of `restart_timer` (lines 153-155): `stop_timer(); start_timer()`. -/
def restartTimer (s : ClientState) : ClientState := startTimer (stopTimer s)

/-- Model of `send_packet` (lines 84-103): build the packet, store it in
`packet_data`, then either drop it (simulated loss) or write it to the
socket, record it in `sent_packets` and count it as sent. -/
def sendPacket (cfg : Cfg) (seq : Nat) (s : ClientState) : ClientState :=
  let pkt := makePacket seq
  let s1 := { s with packet_data := dictInsert seq pkt s.packet_data }
  if simulatedLoss (cfg.draw seq) cfg.lossRate then
    { s1 with stats := { s1.stats with packets_lost := s1.stats.packets_lost + 1 } }
  else
    { s1 with
      wire := s1.wire ++ [pkt],
      sent_packets := dictInsert seq pkt s1.sent_packets,
      stats := { s1.stats with packets_sent := s1.stats.packets_sent + 1 } }

/-- The inner `while` of `send_packets` (lines 74-77), fuelled by the number
of sequence numbers left below `num_packets` (each iteration increments
`next_seq`, and the guard requires `next_seq < num_packets`, so the fuel
never runs out before the guard fails). -/
def fillWindowAux (cfg : Cfg) : Nat → ClientState → ClientState
  | 0, s => s
  | fuel + 1, s =>
    if s.next_seq < s.base + cfg.window_size ∧ s.next_seq < cfg.num_packets ∧
        s.running = true then
      fillWindowAux cfg fuel
        { sendPacket cfg s.next_seq s with next_seq := s.next_seq + 1 }
    else s

/-- The inner `while` of `send_packets`: send while the window has room and
packets remain. -/
def fillWindow (cfg : Cfg) (s : ClientState) : ClientState :=
  fillWindowAux cfg (cfg.num_packets - s.next_seq) s

/-- One execution of the locked body of `send_packets` (lines 73-80): fill
the window, then start the timer if it is inactive and packets are
outstanding. -/
def sendStep (cfg : Cfg) (s : ClientState) : ClientState :=
  let s1 := fillWindow cfg s
  if s1.timer_active = false ∧ s1.base < s1.next_seq then startTimer s1 else s1

/-- Model of `handle_ack` (lines 120-142): count the ACK; if `ack_num >= base`,
slide `base` to `ack_num + 1`, delete every entry with key `≤ ack_num` from
both dictionaries, then restart the timer if packets remain outstanding and
stop it otherwise; a stale ACK changes nothing else. -/
def handleAck (ack : Nat) (s : ClientState) : ClientState :=
  let s0 := { s with stats := { s.stats with acks_received := s.stats.acks_received + 1 } }
  if s0.base ≤ ack then
    let s1 := { s0 with
      base := ack + 1,
      sent_packets := dictEraseLe ack s0.sent_packets,
      packet_data := dictEraseLe ack s0.packet_data }
    if s1.base < s1.next_seq then restartTimer s1 else stopTimer s1
  else s0

/-- The retransmission loop of `handle_timeout` (lines 171-183): for each
sequence number in order, if `packet_data` has an entry, write those bytes
to the socket, record them in `sent_packets` and count a retransmission;
otherwise log and skip. -/
def retransmitList (qs : List Nat) (s : ClientState) : ClientState :=
  qs.foldl
    (fun t q =>
      match dictLookup q t.packet_data with
      | some pkt =>
        { t with
          wire := t.wire ++ [pkt],
          sent_packets := dictInsert q pkt t.sent_packets,
          stats := { t.stats with retransmissions := t.stats.retransmissions + 1 } }
      | none => t)
    s

/-- Model of `handle_timeout` (lines 163-185): when running, count the timeout,
retransmit `range(base, next_seq)` in increasing order from `packet_data`,
then clear `timer_active` and start the timer again. -/
def handleTimeout (s : ClientState) : ClientState :=
  if s.running = true then
    let s1 := { s with stats := { s.stats with timeouts := s.stats.timeouts + 1 } }
    let s2 := retransmitList (List.range' s1.base (s1.next_seq - s1.base)) s1
    startTimer { s2 with timer_active := false }
  else s

/-- The body of `receive_acks` (lines 108-112) applied to one inbound
datagram: exactly-4-byte datagrams are decoded big-endian and handed to
`handle_ack`; every other length is discarded with no state change. -/
def receiveDatagram (data : List Nat) (s : ClientState) : ClientState :=
  if data.length = 4 then handleAck (decodeAck data) s else s

/-- The events that mutate window state, each one a critical section under
`self.lock`. -/
inductive Event where
  | send : Event
  | ack : Nat → Event
  | timeout : Event

/-- One serialized critical section. A timeout event only has an effect when
the timer is active (a cancelled `threading.Timer` never fires). -/
def step (cfg : Cfg) (s : ClientState) : Event → ClientState
  | Event.send => sendStep cfg s
  | Event.ack n => handleAck n s
  | Event.timeout => if s.timer_active then handleTimeout s else s

/-- Run a list of events from the initial state (earliest event first). -/
def run (cfg : Cfg) (es : List Event) : ClientState :=
  es.foldl (step cfg) initState

/-- States reachable during a session. Acknowledgment events are constrained
to `ack < next_seq`: the receiver (spec §6, collaborator contract) only ever
acknowledges the highest in-order sequence number it has received, and it can
only have received packets the client has sent, all of which have sequence
numbers below `next_seq`. Timeout events occur only while the timer is
active. -/
inductive Reachable (cfg : Cfg) : ClientState → Prop where
  | init : Reachable cfg initState
  | send {s} : Reachable cfg s → Reachable cfg (sendStep cfg s)
  | ack {s} (n : Nat) : Reachable cfg s → n < s.next_seq →
      Reachable cfg (handleAck n s)
  | timeout {s} : Reachable cfg s → s.timer_active = true →
      Reachable cfg (handleTimeout s)

/-! ### Dictionary lemmas -/

/-- Lookup in the empty dictionary. -/
@[simp] theorem dictLookup_nil (k : Nat) : dictLookup k [] = none := rfl

/-- Lookup steps through the head entry first. -/
@[simp] theorem dictLookup_cons (k : Nat) (p : Nat × List Nat)
    (d : List (Nat × List Nat)) :
    dictLookup k (p :: d) = if p.1 = k then some p.2 else dictLookup k d := rfl

/-- Updating the entries whose key is `q` in place rewrites exactly the value
found at `q` and leaves every other lookup unchanged. -/
theorem dictLookup_mapUpdate (k q : Nat) (v : List Nat) (d : List (Nat × List Nat)) :
    dictLookup k (d.map (fun p => if p.1 = q then (q, v) else p)) =
      if k = q then (dictLookup q d).map (fun _ => v) else dictLookup k d := by
  induction d with
  | nil => by_cases hkq : k = q <;> simp [hkq]
  | cons p d ih =>
    by_cases hpq : p.1 = q <;> by_cases hpk : p.1 = k <;> by_cases hkq : k = q <;>
      simp_all

/-- Appending a single fresh entry only affects lookups that previously
failed. -/
theorem dictLookup_appendSingle (k q : Nat) (v : List Nat) (d : List (Nat × List Nat)) :
    dictLookup k (d ++ [(q, v)]) =
      if (dictLookup k d).isSome then dictLookup k d
      else if q = k then some v else none := by
  induction d with
  | nil => simp
  | cons p d ih => by_cases hpk : p.1 = k <;> simp_all

/-- Lookup after a dictionary assignment `d[q] = v`: the assigned key now
maps to `v` and every other key is untouched. -/
theorem dictLookup_dictInsert (k q : Nat) (v : List Nat) (d : List (Nat × List Nat)) :
    dictLookup k (dictInsert q v d) = if k = q then some v else dictLookup k d := by
  unfold dictInsert
  by_cases hq : (dictLookup q d).isSome
  · rw [if_pos hq, dictLookup_mapUpdate]
    by_cases hkq : k = q
    · subst hkq
      obtain ⟨w, hw⟩ := Option.isSome_iff_exists.mp hq
      simp [hw]
    · simp [hkq]
  · rw [if_neg hq, dictLookup_appendSingle]
    by_cases hkq : k = q
    · subst hkq
      simp_all [Option.not_isSome_iff_eq_none.mp hq]
    · have hqk : ¬ q = k := fun h => hkq h.symm
      by_cases hk : (dictLookup k d).isSome
      · simp [hk, hkq]
      · simp [hk, hkq, hqk, Option.not_isSome_iff_eq_none.mp hk]

/-- The cumulative deletion loop keeps exactly the entries with key `> a`. -/
theorem dictEraseLe_cons (a : Nat) (p : Nat × List Nat) (d : List (Nat × List Nat)) :
    dictEraseLe a (p :: d) =
      if p.1 ≤ a then dictEraseLe a d else p :: dictEraseLe a d := by
  by_cases hpa : p.1 ≤ a <;> simp [dictEraseLe, List.filter_cons, hpa]

/-- Lookup after the cumulative deletion loop: every key `≤ a` is gone and
every other key is untouched. -/
theorem dictLookup_dictEraseLe (k a : Nat) (d : List (Nat × List Nat)) :
    dictLookup k (dictEraseLe a d) = if k ≤ a then none else dictLookup k d := by
  induction d with
  | nil => by_cases hka : k ≤ a <;> simp [dictEraseLe, hka]
  | cons p d ih =>
    rw [dictEraseLe_cons]
    by_cases hpa : p.1 ≤ a
    · rw [if_pos hpa, ih]
      by_cases hka : k ≤ a
      · rw [if_pos hka, if_pos hka]
      · have hpk : ¬ p.1 = k := by omega
        rw [if_neg hka, if_neg hka, dictLookup_cons, if_neg hpk]
    · rw [if_neg hpa, dictLookup_cons]
      by_cases hpk : p.1 = k
      · have hka : ¬ k ≤ a := by omega
        rw [if_pos hpk, if_neg hka, dictLookup_cons, if_pos hpk]
      · rw [if_neg hpk, ih, dictLookup_cons, if_neg hpk]

/-! ### Field lemmas for the individual operations -/

/-- Fields of the state that `send_packet` never touches, and the
unconditional recording of the serialized bytes in `packet_data`. -/
theorem sendPacket_fields (cfg : Cfg) (q : Nat) (s : ClientState) :
    (sendPacket cfg q s).base = s.base ∧
    (sendPacket cfg q s).next_seq = s.next_seq ∧
    (sendPacket cfg q s).timer_active = s.timer_active ∧
    (sendPacket cfg q s).running = s.running ∧
    (sendPacket cfg q s).packet_data = dictInsert q (makePacket q) s.packet_data := by
  simp only [sendPacket]
  split <;> exact ⟨rfl, rfl, rfl, rfl, rfl⟩

/-- A simulated-lost packet is counted in `packets_lost` and leaves the wire
and `sent_packets` untouched. -/
theorem sendPacket_lost (cfg : Cfg) (q : Nat) (s : ClientState)
    (h : simulatedLoss (cfg.draw q) cfg.lossRate = true) :
    (sendPacket cfg q s).wire = s.wire ∧
    (sendPacket cfg q s).sent_packets = s.sent_packets ∧
    (sendPacket cfg q s).stats.packets_lost = s.stats.packets_lost + 1 ∧
    (sendPacket cfg q s).stats.packets_sent = s.stats.packets_sent := by
  simp only [sendPacket, h]
  exact ⟨rfl, rfl, rfl, rfl⟩

/-- A packet that survives the loss test goes on the wire and is counted in
`packets_sent`. -/
theorem sendPacket_delivered (cfg : Cfg) (q : Nat) (s : ClientState)
    (h : simulatedLoss (cfg.draw q) cfg.lossRate = false) :
    (sendPacket cfg q s).wire = s.wire ++ [makePacket q] ∧
    (sendPacket cfg q s).stats.packets_lost = s.stats.packets_lost ∧
    (sendPacket cfg q s).stats.packets_sent = s.stats.packets_sent + 1 := by
  simp only [sendPacket, h]
  exact ⟨rfl, rfl, rfl⟩

/-- Starting the timer makes it active and changes nothing else. -/
theorem startTimer_fields (s : ClientState) :
    (startTimer s).timer_active = true ∧
    (startTimer s).base = s.base ∧
    (startTimer s).next_seq = s.next_seq ∧
    (startTimer s).running = s.running ∧
    (startTimer s).packet_data = s.packet_data ∧
    (startTimer s).sent_packets = s.sent_packets ∧
    (startTimer s).stats = s.stats ∧
    (startTimer s).wire = s.wire := by
  unfold startTimer
  split
  · exact ⟨by assumption, rfl, rfl, rfl, rfl, rfl, rfl, rfl⟩
  · exact ⟨rfl, rfl, rfl, rfl, rfl, rfl, rfl, rfl⟩

/-- A `handle_ack` call with `ack_num ≥ base` (the cumulative branch):
`base` slides to `ack + 1`, both dictionaries drop every key `≤ ack`, the
timer is restarted when packets remain outstanding and stopped otherwise,
and the ACK is counted. -/
theorem handleAck_slide (ack : Nat) (s : ClientState) (h : s.base ≤ ack) :
    handleAck ack s =
      { s with base := ack + 1,
               sent_packets := dictEraseLe ack s.sent_packets,
               packet_data := dictEraseLe ack s.packet_data,
               timer_active := decide (ack + 1 < s.next_seq),
               stats := { s.stats with acks_received := s.stats.acks_received + 1 } } := by
  obtain ⟨b, n, t, r, pd, sp, st, w⟩ := s
  simp only [handleAck] at *
  rw [if_pos h]
  by_cases hn : ack + 1 < n
  · rw [if_pos hn]
    simp only [restartTimer, stopTimer, startTimer]
    cases t <;> simp [hn]
  · rw [if_neg hn]
    simp only [stopTimer]
    cases t <;> simp [hn]

/-- A stale `handle_ack` call (`ack_num < base`) only counts the ACK. -/
theorem handleAck_stale (ack : Nat) (s : ClientState) (h : ack < s.base) :
    handleAck ack s =
      { s with stats := { s.stats with acks_received := s.stats.acks_received + 1 } } := by
  obtain ⟨b, n, t, r, pd, sp, st, w⟩ := s
  simp only [handleAck] at *
  rw [if_neg (by omega)]

/-- The retransmission loop leaves the window, the pending store, the timer
flag, the running flag and the loss counter untouched, and writes to the
wire exactly the stored bytes of the sequence numbers it finds in the
store, in list order. -/
theorem retransmitList_spec (qs : List Nat) (s : ClientState) :
    (retransmitList qs s).base = s.base ∧
    (retransmitList qs s).next_seq = s.next_seq ∧
    (retransmitList qs s).timer_active = s.timer_active ∧
    (retransmitList qs s).running = s.running ∧
    (retransmitList qs s).packet_data = s.packet_data ∧
    (retransmitList qs s).stats.packets_lost = s.stats.packets_lost ∧
    (retransmitList qs s).wire =
      s.wire ++ qs.filterMap (fun q => dictLookup q s.packet_data) := by
  induction qs generalizing s with
  | nil => simp [retransmitList]
  | cons q qs ih =>
    cases hq : dictLookup q s.packet_data with
    | none =>
      have hstep : retransmitList (q :: qs) s = retransmitList qs s := by
        simp [retransmitList, hq]
      rw [hstep]
      simp only [List.filterMap_cons, hq]
      exact ih s
    | some pkt =>
      have hstep : retransmitList (q :: qs) s =
          retransmitList qs
            { s with
              wire := s.wire ++ [pkt],
              sent_packets := dictInsert q pkt s.sent_packets,
              stats := { s.stats with
                retransmissions := s.stats.retransmissions + 1 } } := by
        simp [retransmitList, hq]
      rw [hstep]
      simp only [List.filterMap_cons, hq]
      obtain ⟨h1, h2, h3, h4, h5, h6, h7⟩ := ih
        { s with
          wire := s.wire ++ [pkt],
          sent_packets := dictInsert q pkt s.sent_packets,
          stats := { s.stats with
            retransmissions := s.stats.retransmissions + 1 } }
      refine ⟨?_, ?_, ?_, ?_, ?_, ?_, ?_⟩ <;>
        simp_all

/-- What one `handle_timeout` call does while the session is running: the
window, the pending store and the loss counter are untouched, the timer ends
up active, and the wire receives exactly the stored bytes of the in-flight
range, in increasing sequence order. -/
theorem handleTimeout_spec (s : ClientState) (hr : s.running = true) :
    (handleTimeout s).base = s.base ∧
    (handleTimeout s).next_seq = s.next_seq ∧
    (handleTimeout s).packet_data = s.packet_data ∧
    (handleTimeout s).timer_active = true ∧
    (handleTimeout s).running = true ∧
    (handleTimeout s).stats.packets_lost = s.stats.packets_lost ∧
    (handleTimeout s).wire = s.wire ++
      (List.range' s.base (s.next_seq - s.base)).filterMap
        (fun q => dictLookup q s.packet_data) := by
  unfold handleTimeout
  rw [if_pos hr]
  obtain ⟨h1, h2, h3, h4, h5, h6, h7⟩ := retransmitList_spec
    (List.range' s.base (s.next_seq - s.base))
    { s with stats := { s.stats with timeouts := s.stats.timeouts + 1 } }
  refine ⟨?_, ?_, ?_, ?_, ?_, ?_, ?_⟩ <;>
    simp_all [startTimer]

/-- The window-fill loop never changes `base`, the timer flag or the running
flag, and only moves `next_seq` forward. -/
theorem fillWindowAux_fields (cfg : Cfg) (fuel : Nat) (s : ClientState) :
    (fillWindowAux cfg fuel s).base = s.base ∧
    (fillWindowAux cfg fuel s).timer_active = s.timer_active ∧
    (fillWindowAux cfg fuel s).running = s.running ∧
    s.next_seq ≤ (fillWindowAux cfg fuel s).next_seq := by
  induction fuel generalizing s with
  | zero => simp [fillWindowAux]
  | succ fuel ih =>
    rw [fillWindowAux]
    split
    · obtain ⟨h1, h2, h3, h4⟩ := ih
        { sendPacket cfg s.next_seq s with next_seq := s.next_seq + 1 }
      obtain ⟨p1, p2, p3, p4, p5⟩ := sendPacket_fields cfg s.next_seq s
      refine ⟨?_, ?_, ?_, ?_⟩ <;> simp_all
      omega
    · exact ⟨rfl, rfl, rfl, Nat.le_refl _⟩

/-- The window-fill loop respects the window bound: `next_seq` never passes
`base + window_size`. -/
theorem fillWindowAux_window (cfg : Cfg) (fuel : Nat) (s : ClientState)
    (h : s.next_seq ≤ s.base + cfg.window_size) :
    (fillWindowAux cfg fuel s).next_seq ≤
      (fillWindowAux cfg fuel s).base + cfg.window_size := by
  induction fuel generalizing s with
  | zero => simpa [fillWindowAux] using h
  | succ fuel ih =>
    rw [fillWindowAux]
    split
    case isTrue hg =>
      refine ih { sendPacket cfg s.next_seq s with next_seq := s.next_seq + 1 } ?_
      obtain ⟨p1, p2, p3, p4, p5⟩ := sendPacket_fields cfg s.next_seq s
      simp only [p1]
      omega
    case isFalse hg => simpa using h

/-- The window-fill loop keeps the pending store's key set equal to the
in-flight range and its values equal to the original serialized bytes. -/
theorem fillWindowAux_store (cfg : Cfg) (fuel : Nat) (s : ClientState)
    (hb : s.base ≤ s.next_seq)
    (hs : ∀ k, (dictLookup k s.packet_data).isSome ↔ s.base ≤ k ∧ k < s.next_seq)
    (hv : ∀ k b, dictLookup k s.packet_data = some b → b = makePacket k) :
    (fillWindowAux cfg fuel s).base ≤ (fillWindowAux cfg fuel s).next_seq ∧
    (∀ k, (dictLookup k (fillWindowAux cfg fuel s).packet_data).isSome ↔
      (fillWindowAux cfg fuel s).base ≤ k ∧ k < (fillWindowAux cfg fuel s).next_seq) ∧
    (∀ k b, dictLookup k (fillWindowAux cfg fuel s).packet_data = some b →
      b = makePacket k) := by
  induction fuel generalizing s with
  | zero => exact ⟨hb, hs, hv⟩
  | succ fuel ih =>
    rw [fillWindowAux]
    split
    case isTrue hg =>
      obtain ⟨p1, p2, p3, p4, p5⟩ := sendPacket_fields cfg s.next_seq s
      refine ih { sendPacket cfg s.next_seq s with next_seq := s.next_seq + 1 }
        ?_ ?_ ?_
      · simp only [p1]; omega
      · intro k
        simp only [p5, dictLookup_dictInsert, p1]
        by_cases hk : k = s.next_seq
        · subst hk; simp; omega
        · rw [if_neg hk]
          rw [hs k]
          constructor <;> intro hc <;> omega
      · intro k b
        simp only [p5, dictLookup_dictInsert]
        by_cases hk : k = s.next_seq
        · subst hk
          intro hx
          simp at hx
          exact hx.symm
        · rw [if_neg hk]
          exact hv k b
    case isFalse hg => exact ⟨hb, hs, hv⟩

/-- The session invariant: window bound, store consistency (key set equals
the in-flight range, values are the original serialized bytes), the
timer-activity equivalence, and the running flag. -/
def Inv (cfg : Cfg) (s : ClientState) : Prop :=
  s.base ≤ s.next_seq ∧
  s.next_seq ≤ s.base + cfg.window_size ∧
  (∀ k, (dictLookup k s.packet_data).isSome ↔ s.base ≤ k ∧ k < s.next_seq) ∧
  (∀ k b, dictLookup k s.packet_data = some b → b = makePacket k) ∧
  (s.timer_active = true ↔ s.base < s.next_seq) ∧
  s.running = true

/-- The initial state satisfies the invariant. -/
theorem inv_initState (cfg : Cfg) : Inv cfg initState := by
  refine ⟨Nat.le_refl _, by simp [initState], ?_, ?_, ?_, rfl⟩
  · intro k; simp [initState]
  · intro k b h; simp [initState, dictLookup] at h
  · simp [initState]

/-- The locked body of `send_packets` preserves the invariant. -/
theorem sendStep_inv (cfg : Cfg) (s : ClientState) (h : Inv cfg s) :
    Inv cfg (sendStep cfg s) := by
  obtain ⟨hb, hw, hs, hv, ht, hr⟩ := h
  unfold sendStep fillWindow
  obtain ⟨f1, f2, f3, f4⟩ := fillWindowAux_fields cfg (cfg.num_packets - s.next_seq) s
  obtain ⟨g1, g2, g3⟩ := fillWindowAux_store cfg (cfg.num_packets - s.next_seq) s hb hs hv
  have gw := fillWindowAux_window cfg (cfg.num_packets - s.next_seq) s hw
  set t := fillWindowAux cfg (cfg.num_packets - s.next_seq) s
  show Inv cfg (if t.timer_active = false ∧ t.base < t.next_seq then startTimer t else t)
  split
  case isTrue hc =>
    obtain ⟨q1, q2, q3, q4, q5, q6, q7, q8⟩ := startTimer_fields t
    refine ⟨?_, ?_, ?_, ?_, ?_, ?_⟩
    · rw [q2, q3]; exact g1
    · rw [q2, q3]; exact gw
    · intro k; rw [q5, q2, q3]; exact g2 k
    · intro k b; rw [q5]; exact g3 k b
    · rw [q1, q2, q3]; simp only [true_iff]; exact hc.2
    · rw [q4, f3]; exact hr
  case isFalse hc =>
    refine ⟨g1, gw, g2, g3, ?_, by rw [f3]; exact hr⟩
    by_cases htt : t.timer_active = true
    · have hbase : s.base < s.next_seq := ht.mp (by rw [← f2]; exact htt)
      have : t.base < t.next_seq := by rw [f1]; omega
      simp [htt, this]
    · have hff : t.timer_active = false := by
        cases hx : t.timer_active
        · rfl
        · exact absurd hx htt
      have : ¬ t.base < t.next_seq := fun hlt => hc ⟨hff, hlt⟩
      simp [hff, this]

/-- Projections of the cumulative `handle_ack` branch. -/
theorem handleAck_fields_slide (ack : Nat) (s : ClientState) (h : s.base ≤ ack) :
    (handleAck ack s).base = ack + 1 ∧
    (handleAck ack s).next_seq = s.next_seq ∧
    (handleAck ack s).packet_data = dictEraseLe ack s.packet_data ∧
    (handleAck ack s).sent_packets = dictEraseLe ack s.sent_packets ∧
    (handleAck ack s).timer_active = decide (ack + 1 < s.next_seq) ∧
    (handleAck ack s).running = s.running ∧
    (handleAck ack s).wire = s.wire := by
  rw [handleAck_slide ack s h]
  exact ⟨rfl, rfl, rfl, rfl, rfl, rfl, rfl⟩

/-- Projections of the stale `handle_ack` branch. -/
theorem handleAck_fields_stale (ack : Nat) (s : ClientState) (h : ack < s.base) :
    (handleAck ack s).base = s.base ∧
    (handleAck ack s).next_seq = s.next_seq ∧
    (handleAck ack s).packet_data = s.packet_data ∧
    (handleAck ack s).sent_packets = s.sent_packets ∧
    (handleAck ack s).timer_active = s.timer_active ∧
    (handleAck ack s).running = s.running ∧
    (handleAck ack s).wire = s.wire := by
  rw [handleAck_stale ack s h]
  exact ⟨rfl, rfl, rfl, rfl, rfl, rfl, rfl⟩

/-- Processing an acknowledgment for a sent packet preserves the invariant. -/
theorem handleAck_inv (cfg : Cfg) (s : ClientState) (ack : Nat)
    (hn : ack < s.next_seq) (h : Inv cfg s) : Inv cfg (handleAck ack s) := by
  obtain ⟨hb, hw, hs, hv, ht, hr⟩ := h
  by_cases hba : s.base ≤ ack
  · obtain ⟨a1, a2, a3, a4, a5, a6, a7⟩ := handleAck_fields_slide ack s hba
    refine ⟨?_, ?_, ?_, ?_, ?_, ?_⟩
    · rw [a1, a2]; omega
    · rw [a1, a2]; omega
    · intro k
      rw [a3, a1, a2, dictLookup_dictEraseLe]
      by_cases hk : k ≤ ack
      · rw [if_pos hk]
        simp only [Option.isSome_none]
        constructor
        · intro hx; cases hx
        · intro hx; omega
      · rw [if_neg hk, hs k]
        omega
    · intro k b
      rw [a3, dictLookup_dictEraseLe]
      by_cases hk : k ≤ ack
      · rw [if_pos hk]
        intro hx; cases hx
      · rw [if_neg hk]; exact hv k b
    · rw [a5, a1, a2]
      simp
    · rw [a6]; exact hr
  · obtain ⟨a1, a2, a3, a4, a5, a6, a7⟩ := handleAck_fields_stale ack s (by omega)
    refine ⟨?_, ?_, ?_, ?_, ?_, ?_⟩
    · rw [a1, a2]; exact hb
    · rw [a1, a2]; exact hw
    · intro k; rw [a3, a1, a2]; exact hs k
    · intro k b; rw [a3]; exact hv k b
    · rw [a5, a1, a2]; exact ht
    · rw [a6]; exact hr

/-- A timeout firing while the timer is active preserves the invariant. -/
theorem handleTimeout_inv (cfg : Cfg) (s : ClientState)
    (hT : s.timer_active = true) (h : Inv cfg s) : Inv cfg (handleTimeout s) := by
  obtain ⟨hb, hw, hs, hv, ht, hr⟩ := h
  obtain ⟨h1, h2, h3, h4, h5, h6, h7⟩ := handleTimeout_spec s hr
  refine ⟨?_, ?_, ?_, ?_, ?_, h5⟩
  · rw [h1, h2]; exact hb
  · rw [h1, h2]; exact hw
  · intro k; rw [h3, h1, h2]; exact hs k
  · intro k b; rw [h3]; exact hv k b
  · rw [h4, h1, h2]; simp only [true_iff]; exact ht.mp hT

/-- Every reachable state of a session satisfies the invariant. -/
theorem reachable_inv {cfg : Cfg} {s : ClientState} (h : Reachable cfg s) :
    Inv cfg s := by
  induction h with
  | init => exact inv_initState cfg
  | send _ ih => exact sendStep_inv _ _ ih
  | ack n _ hn ih => exact handleAck_inv _ _ n hn ih
  | timeout _ hT ih => exact handleTimeout_inv _ _ hT ih

/-! ### Further helpers and concrete sessions -/

/-- The locked send body never changes `base` or `running`. -/
theorem sendStep_base_running (cfg : Cfg) (s : ClientState) :
    (sendStep cfg s).base = s.base ∧ (sendStep cfg s).running = s.running := by
  unfold sendStep fillWindow
  obtain ⟨f1, f2, f3, f4⟩ := fillWindowAux_fields cfg (cfg.num_packets - s.next_seq) s
  set t := fillWindowAux cfg (cfg.num_packets - s.next_seq) s
  show (if t.timer_active = false ∧ t.base < t.next_seq then startTimer t else t).base
      = s.base ∧
    (if t.timer_active = false ∧ t.base < t.next_seq then startTimer t else t).running
      = s.running
  split
  · obtain ⟨q1, q2, q3, q4, q5, q6, q7, q8⟩ := startTimer_fields t
    exact ⟨by rw [q2, f1], by rw [q4, f3]⟩
  · exact ⟨f1, f3⟩

/-- When every element of `l` is mapped to `some` of `g`, `filterMap`
collapses to `map`. -/
theorem filterMap_eq_map_of_forall (l : List Nat) (f : Nat → Option (List Nat))
    (g : Nat → List Nat) (h : ∀ a ∈ l, f a = some (g a)) :
    l.filterMap f = l.map g := by
  induction l with
  | nil => rfl
  | cons a l ih =>
    have hfa := h a (List.mem_cons_self a l)
    simp only [List.filterMap_cons, hfa, List.map_cons]
    rw [ih (fun x hx => h x (List.mem_cons_of_mem a hx))]

/-- The window part of the state: `(base, next_seq, packet_data)`. -/
def windowState (s : ClientState) : Nat × Nat × List (Nat × List Nat) :=
  (s.base, s.next_seq, s.packet_data)

/-- Scenario A configuration: `window_size = 4`, `num_packets = 15`,
`packet_loss_rate = 0`, every random draw positive (so no simulated loss
under the code's `<=` test). -/
def cfgA : Cfg :=
  { window_size := 4, num_packets := 15, lossRate := 0, draw := fun _ => 1 }

/-- A configuration with `packet_loss_rate = 0` whose random draw comes out
exactly `0.0` (a value `random.random()` can return). -/
def cfgZero : Cfg :=
  { window_size := 4, num_packets := 15, lossRate := 0, draw := fun _ => 0 }

/-- The loss-free Scenario A schedule: one send step, then the arrival of
each cumulative acknowledgment `0, 1, …, 14` with a send step after each. -/
def scenA : List Event :=
  Event.send :: ((List.range 15).map (fun k => [Event.ack k, Event.send])).flatten

/-- A session in which no acknowledgment ever arrives: the events are send
steps (`true`) and timer expiries (`false`), most recent last. -/
def noAckRun (cfg : Cfg) : List Bool → ClientState
  | [] => initState
  | e :: es =>
    if e then sendStep cfg (noAckRun cfg es)
    else if (noAckRun cfg es).timer_active then handleTimeout (noAckRun cfg es)
    else noAckRun cfg es

/-! ### Claim theorems -/

/-- C1 (counterexample). The claim asserts the window invariant is preserved
by every processed acknowledgment for every value of `ackSeq`, including
`ackSeq ≥ nextSeq`. It is not: from the initial state one send step yields a
state with `base = 0`, `next_seq = 4` satisfying the invariant, yet
processing the acknowledgment `ackSeq = 10` (a sequence number never sent)
sets `base = 11 > next_seq = 4`, violating `base ≤ nextSeq`. -/
theorem window_invariant_breaks_on_unsent_ack :
    (sendStep cfgA initState).base ≤ (sendStep cfgA initState).next_seq ∧
    (sendStep cfgA initState).next_seq ≤
      (sendStep cfgA initState).base + cfgA.window_size ∧
    ¬ ((handleAck 10 (sendStep cfgA initState)).base ≤
        (handleAck 10 (sendStep cfgA initState)).next_seq) := by
  decide

/-- C1 (amended). In every state reachable by send steps, timeouts and
acknowledgments of sequence numbers actually sent (`ackSeq < nextSeq`, as the
collaborator contract of spec §6 guarantees), the window invariant
`base ≤ nextSeq ≤ base + windowSize` holds. -/
theorem window_invariant_reachable {cfg : Cfg} {s : ClientState}
    (h : Reachable cfg s) :
    s.base ≤ s.next_seq ∧ s.next_seq ≤ s.base + cfg.window_size :=
  ⟨(reachable_inv h).1, (reachable_inv h).2.1⟩

/-- Witness for C1 at the reachable state after one send step. -/
theorem window_invariant_reachable_witness :
    (sendStep cfgA initState).base ≤ (sendStep cfgA initState).next_seq ∧
    (sendStep cfgA initState).next_seq ≤
      (sendStep cfgA initState).base + cfgA.window_size :=
  window_invariant_reachable (Reachable.send Reachable.init)

/-- C2. In every reachable state the key set of the Pending-Packet Store
(`packet_data`, the dictionary `handle_timeout` retransmits from) is exactly
the in-flight range: a key `k` has an entry iff `base ≤ k < nextSeq`.
Entries are added by `send_packet` and removed by `handle_ack`. -/
theorem store_keys_equal_inflight {cfg : Cfg} {s : ClientState}
    (h : Reachable cfg s) (k : Nat) :
    (dictLookup k s.packet_data).isSome ↔ s.base ≤ k ∧ k < s.next_seq :=
  (reachable_inv h).2.2.1 k

/-- Witness for C2 at the reachable state after one send step, key 2. -/
theorem store_keys_equal_inflight_witness :
    (dictLookup 2 (sendStep cfgA initState).packet_data).isSome ↔
      (sendStep cfgA initState).base ≤ 2 ∧ 2 < (sendStep cfgA initState).next_seq :=
  store_keys_equal_inflight (Reachable.send Reachable.init) 2

/-- C3. An acknowledgment with `ackSeq ≥ base` advances `base` to
`ackSeq + 1`, removes every store entry with key `≤ ackSeq` and no other,
and leaves the timer active exactly when `base < nextSeq` afterwards; an
acknowledgment with `ackSeq < base` leaves the window state and the timer
unchanged; and a second delivery of the same acknowledgment never changes
the window state again (idempotence). -/
theorem handleAck_cumulative_idempotent (s : ClientState) (ack : Nat) :
    (s.base ≤ ack →
      (handleAck ack s).base = ack + 1 ∧
      (∀ k, k ≤ ack → dictLookup k (handleAck ack s).packet_data = none) ∧
      (∀ k, ack < k →
        dictLookup k (handleAck ack s).packet_data = dictLookup k s.packet_data) ∧
      (handleAck ack s).timer_active = decide (ack + 1 < s.next_seq)) ∧
    (ack < s.base →
      (handleAck ack s).base = s.base ∧
      (handleAck ack s).next_seq = s.next_seq ∧
      (handleAck ack s).packet_data = s.packet_data ∧
      (handleAck ack s).sent_packets = s.sent_packets ∧
      (handleAck ack s).timer_active = s.timer_active) ∧
    windowState (handleAck ack (handleAck ack s)) = windowState (handleAck ack s) := by
  refine ⟨?_, ?_, ?_⟩
  · intro hba
    obtain ⟨a1, a2, a3, a4, a5, a6, a7⟩ := handleAck_fields_slide ack s hba
    refine ⟨a1, ?_, ?_, a5⟩
    · intro k hk
      rw [a3, dictLookup_dictEraseLe, if_pos hk]
    · intro k hk
      rw [a3, dictLookup_dictEraseLe, if_neg (by omega)]
  · intro hba
    obtain ⟨a1, a2, a3, a4, a5, a6, a7⟩ := handleAck_fields_stale ack s hba
    exact ⟨a1, a2, a3, a4, a5⟩
  · have hlt : ack < (handleAck ack s).base := by
      by_cases hba : s.base ≤ ack
      · rw [(handleAck_fields_slide ack s hba).1]
        omega
      · rw [(handleAck_fields_stale ack s (by omega)).1]
        omega
    obtain ⟨b1, b2, b3, b4, b5, b6, b7⟩ :=
      handleAck_fields_stale ack (handleAck ack s) hlt
    unfold windowState
    rw [b1, b2, b3]

/-- Witness for C3: in the state after one send step (`base = 0`,
`next_seq = 4`), the acknowledgment 2 slides `base` to 3 and keeps the
timer running. -/
theorem handleAck_cumulative_idempotent_witness :
    (handleAck 2 (sendStep cfgA initState)).base = 2 + 1 ∧
    (handleAck 2 (sendStep cfgA initState)).timer_active =
      decide (2 + 1 < (sendStep cfgA initState).next_seq) :=
  ⟨((handleAck_cumulative_idempotent (sendStep cfgA initState) 2).1 (by decide)).1,
   ((handleAck_cumulative_idempotent (sendStep cfgA initState) 2).1 (by decide)).2.2.2⟩

/-- C4. In every reachable state with the timer active, a timeout writes to
the socket exactly the originally serialized bytes of every sequence number
in `[base, nextSeq)`, once each, in increasing order, leaves `base`,
`nextSeq` and the pending store unchanged, and restarts the timer. -/
theorem timeout_retransmits_inflight {cfg : Cfg} {s : ClientState}
    (h : Reachable cfg s) (_hT : s.timer_active = true) :
    (handleTimeout s).wire =
      s.wire ++ (List.range' s.base (s.next_seq - s.base)).map makePacket ∧
    (handleTimeout s).base = s.base ∧
    (handleTimeout s).next_seq = s.next_seq ∧
    (handleTimeout s).packet_data = s.packet_data ∧
    (handleTimeout s).timer_active = true := by
  obtain ⟨hb, hw, hs, hv, ht, hr⟩ := reachable_inv h
  obtain ⟨h1, h2, h3, h4, h5, h6, h7⟩ := handleTimeout_spec s hr
  refine ⟨?_, h1, h2, h3, h4⟩
  rw [h7]
  congr 1
  apply filterMap_eq_map_of_forall
  intro q hq
  rw [List.mem_range'_1] at hq
  have hq2 : s.base ≤ q ∧ q < s.next_seq := by omega
  obtain ⟨bq, hbq⟩ := Option.isSome_iff_exists.mp ((hs q).mpr hq2)
  rw [hbq, hv q bq hbq]

/-- Witness for C4 at the reachable state after one send step, whose timer
is active. -/
theorem timeout_retransmits_inflight_witness :
    (handleTimeout (sendStep cfgA initState)).wire =
      (sendStep cfgA initState).wire ++
        (List.range' (sendStep cfgA initState).base
          ((sendStep cfgA initState).next_seq - (sendStep cfgA initState).base)).map
          makePacket ∧
    (handleTimeout (sendStep cfgA initState)).base = (sendStep cfgA initState).base ∧
    (handleTimeout (sendStep cfgA initState)).next_seq =
      (sendStep cfgA initState).next_seq ∧
    (handleTimeout (sendStep cfgA initState)).packet_data =
      (sendStep cfgA initState).packet_data ∧
    (handleTimeout (sendStep cfgA initState)).timer_active = true :=
  timeout_retransmits_inflight (Reachable.send Reachable.init) (by decide)

/-- C5. In every reachable state the single timer flag is active exactly
when a sent-but-unacknowledged packet exists (`base < nextSeq`); the
reachability induction shows every send step, acknowledgment and timeout
preserves this equivalence. -/
theorem timer_active_iff_outstanding {cfg : Cfg} {s : ClientState}
    (h : Reachable cfg s) :
    s.timer_active = true ↔ s.base < s.next_seq :=
  (reachable_inv h).2.2.2.2.1

/-- Witness for C5 at the reachable state after one send step. -/
theorem timer_active_iff_outstanding_witness :
    (sendStep cfgA initState).timer_active = true ↔
      (sendStep cfgA initState).base < (sendStep cfgA initState).next_seq :=
  timer_active_iff_outstanding (Reachable.send Reachable.init)

/-- C6 (code evidence). In a session where no acknowledgment ever arrives,
after any sequence of send steps and timer expiries the guard of
`send_packets`' outer loop (`base < num_packets and running`) still holds:
`base` stays 0 and `running` stays true. Hence `send_packets` never
returns, and `wait_for_completion` — the only place the 30-second `max_wait`
and the partial-completion report live — is never reached. -/
theorem send_loop_guard_persists_without_acks (es : List Bool) :
    (noAckRun cfgA es).base = 0 ∧ (noAckRun cfgA es).running = true := by
  induction es with
  | nil => exact ⟨rfl, rfl⟩
  | cons e es ih =>
    obtain ⟨ih1, ih2⟩ := ih
    cases e with
    | true =>
      show (sendStep cfgA (noAckRun cfgA es)).base = 0 ∧
        (sendStep cfgA (noAckRun cfgA es)).running = true
      obtain ⟨s1, s2⟩ := sendStep_base_running cfgA (noAckRun cfgA es)
      exact ⟨by rw [s1, ih1], by rw [s2, ih2]⟩
    | false =>
      show ((if (noAckRun cfgA es).timer_active then handleTimeout (noAckRun cfgA es)
          else noAckRun cfgA es).base = 0 ∧
        (if (noAckRun cfgA es).timer_active then handleTimeout (noAckRun cfgA es)
          else noAckRun cfgA es).running = true)
      by_cases ht : (noAckRun cfgA es).timer_active = true
      · rw [if_pos ht]
        obtain ⟨h1, h2, h3, h4, h5, h6, h7⟩ := handleTimeout_spec (noAckRun cfgA es) ih2
        exact ⟨by rw [h1, ih1], h5⟩
      · rw [if_neg ht]
        exact ⟨ih1, ih2⟩

/-- C7. The listener treats an inbound datagram as an acknowledgment exactly
when it is 4 bytes long, decoding it as the unsigned big-endian sequence
number (the inverse of the data-packet header encoding); every datagram of
any other length (for example length 3) leaves the state unchanged. -/
theorem ack_datagram_length_gate :
    (∀ (data : List Nat) (s : ClientState), data.length ≠ 4 →
      receiveDatagram data s = s) ∧
    (∀ (data : List Nat) (s : ClientState), data.length = 4 →
      receiveDatagram data s = handleAck (decodeAck data) s) ∧
    (∀ n : Nat, n < 4294967296 → decodeAck (encodeSeq n) = n) := by
  refine ⟨?_, ?_, ?_⟩
  · intro data s h
    unfold receiveDatagram
    rw [if_neg h]
  · intro data s h
    unfold receiveDatagram
    rw [if_pos h]
  · intro n hn
    simp only [decodeAck, encodeSeq]
    omega

/-- Witness for C7: a malformed 3-byte datagram is discarded with no state
change. -/
theorem ack_datagram_length_gate_witness :
    receiveDatagram [1, 2, 3] initState = initState :=
  ack_datagram_length_gate.1 [1, 2, 3] initState (by decide)

/-- C8 (counterexample). The claim says that with `lossRate = 0` no packet
is ever simulated-lost, for every value of the random draw. The code tests
`random.random() <= self.packet_loss_rate`, so the draw `0.0` (a value
`random.random()` can return) with `lossRate = 0` drops the packet and
counts it as lost. -/
theorem zero_lossRate_drop_at_zero_draw :
    cfgZero.lossRate = 0 ∧
    simulatedLoss (cfgZero.draw 0) cfgZero.lossRate = true ∧
    (sendPacket cfgZero 0 initState).stats.packets_lost = 1 := by
  refine ⟨rfl, rfl, by decide⟩

set_option maxRecDepth 10000

/-- C8 (amended). The send operation drops exactly when the draw is `≤`
the loss rate; with `lossRate = 0` every packet whose draw is positive is
transmitted and counted as sent, not lost; and the loss-free Scenario A run
(`windowSize = 4`, `totalPackets = 15`, positive draws) performs zero
retransmissions, sends each of the 15 packets once and drives `base` to
15. -/
theorem loss_gate_spec :
    (∀ draw lossRate : ℚ, simulatedLoss draw lossRate = true ↔ draw ≤ lossRate) ∧
    (∀ (cfg : Cfg) (q : Nat) (s : ClientState), cfg.lossRate = 0 → 0 < cfg.draw q →
      (sendPacket cfg q s).stats.packets_lost = s.stats.packets_lost ∧
      (sendPacket cfg q s).stats.packets_sent = s.stats.packets_sent + 1 ∧
      (sendPacket cfg q s).wire = s.wire ++ [makePacket q]) ∧
    ((run cfgA scenA).base = 15 ∧
      (run cfgA scenA).stats.retransmissions = 0 ∧
      (run cfgA scenA).stats.packets_sent = 15) := by
  refine ⟨?_, ?_, ?_, ?_, ?_⟩
  · intro d r
    simp [simulatedLoss]
  · intro cfg q s h0 hd
    have hl : simulatedLoss (cfg.draw q) cfg.lossRate = false := by
      simp only [simulatedLoss, h0, decide_eq_false_iff_not, not_le]
      exact hd
    obtain ⟨w1, w2, w3⟩ := sendPacket_delivered cfg q s hl
    exact ⟨w2, w3, w1⟩
  · decide
  · decide
  · decide

/-- Witness for C8 at `cfgA` (loss rate 0, draw 1): packet 0 is sent, not
lost. -/
theorem loss_gate_spec_witness :
    (sendPacket cfgA 0 initState).stats.packets_lost =
      initState.stats.packets_lost ∧
    (sendPacket cfgA 0 initState).stats.packets_sent =
      initState.stats.packets_sent + 1 ∧
    (sendPacket cfgA 0 initState).wire = initState.wire ++ [makePacket 0] :=
  loss_gate_spec.2.1 cfgA 0 initState rfl (by decide)

/-- C9. A timeout's retransmissions never consult the loss simulation:
`handle_timeout` writes the stored bytes straight to the socket (its model
takes no loss configuration at all), the loss counter is unchanged, and
every in-flight sequence number found in the store goes on the wire. -/
theorem retransmission_bypasses_loss (s : ClientState) (hr : s.running = true) :
    (handleTimeout s).stats.packets_lost = s.stats.packets_lost ∧
    (handleTimeout s).wire = s.wire ++
      (List.range' s.base (s.next_seq - s.base)).filterMap
        (fun q => dictLookup q s.packet_data) := by
  obtain ⟨h1, h2, h3, h4, h5, h6, h7⟩ := handleTimeout_spec s hr
  exact ⟨h6, h7⟩

/-- Witness for C9 at the state after one send step. -/
theorem retransmission_bypasses_loss_witness :
    (handleTimeout (sendStep cfgA initState)).stats.packets_lost =
      (sendStep cfgA initState).stats.packets_lost ∧
    (handleTimeout (sendStep cfgA initState)).wire =
      (sendStep cfgA initState).wire ++
        (List.range' (sendStep cfgA initState).base
          ((sendStep cfgA initState).next_seq - (sendStep cfgA initState).base)).filterMap
          (fun q => dictLookup q (sendStep cfgA initState).packet_data) :=
  retransmission_bypasses_loss (sendStep cfgA initState) (by decide)

/-- C10. The serialized bytes are stored in `packet_data` before the loss
decision: a packet dropped by the loss simulation never touches the wire,
yet its original bytes sit in the store under its sequence number, and any
later timeout in a state still holding that entry with the sequence number
in flight puts exactly those bytes on the wire. -/
theorem lost_packet_remains_stored (cfg : Cfg) (q : Nat) (s : ClientState)
    (h : simulatedLoss (cfg.draw q) cfg.lossRate = true) :
    dictLookup q (sendPacket cfg q s).packet_data = some (makePacket q) ∧
    (sendPacket cfg q s).wire = s.wire ∧
    (∀ t : ClientState, t.running = true →
      dictLookup q t.packet_data = some (makePacket q) →
      t.base ≤ q → q < t.next_seq →
      makePacket q ∈ (handleTimeout t).wire) := by
  obtain ⟨p1, p2, p3, p4, p5⟩ := sendPacket_fields cfg q s
  obtain ⟨l1, l2, l3, l4⟩ := sendPacket_lost cfg q s h
  refine ⟨?_, l1, ?_⟩
  · rw [p5, dictLookup_dictInsert, if_pos rfl]
  · intro t htr hlook hb hn
    obtain ⟨g1, g2, g3, g4, g5, g6, g7⟩ := handleTimeout_spec t htr
    rw [g7]
    refine List.mem_append.mpr (Or.inr ?_)
    exact List.mem_filterMap.mpr
      ⟨q, by rw [List.mem_range'_1]; omega, hlook⟩

/-- Witness for C10: with loss rate 0 and draw 0, packet 0 is dropped but
its bytes are stored. -/
theorem lost_packet_remains_stored_witness :
    dictLookup 0 (sendPacket cfgZero 0 initState).packet_data =
      some (makePacket 0) :=
  (lost_packet_remains_stored cfgZero 0 initState rfl).1

end GBN
